import Mathlib

/-!
Shallow embedding of the PGT-A analysis dashboard (`strlit.py`).

The source is a thin pandas/streamlit script. Its testable core is:
  * `filtered_data` — boolean-mask filtering by `hospital_location` / `Hospital`
    membership in the two multiselect selections (`.isin` on both, `&`-combined);
  * the metric block — distinct-hospital count, sums of `embryo_count` /
    `patient_count`, means of the three rate columns;
  * the table search — `astype(str)` + `str.contains(search, case=False)`
    (pandas default `regex=True`, so the query is compiled as a regular
    expression) any-cell row mask, applied only when the query is non-empty;
  * `location_stats` — groupby `hospital_location` with sum/mean aggregates
    rounded to 2 decimals (numpy half-to-even rounding);
  * the correlation matrix `corr_data` — pairwise Pearson correlation of the
    four numeric columns (NaN when a denominator is zero, modelled as `none`);
  * the CSV download — `to_csv(index=False)`: comma-separated, `"`-quoted
    fields (minimal quoting, quote doubling), one `\n`-terminated line per
    record, header line first.

Rows are modelled as a structure of the required columns; numeric cells are
exact rationals `ℚ` (the float arithmetic of the source is embedded exactly),
NaN-producing aggregates return `Option`.  A table is a `List Row` in row
order.  Undefined (NaN) aggregate values are `none`.
-/

/-- A record of the dashboard's table: the columns the script requires.
`CH_RATE`, `AF_RATE`, `IC_RATE` stand for the source's `CH-RATE`, `AF-RATE`,
`IC-RATE` column names (hyphens are not valid in Lean identifiers). -/
structure Row where
  hospital_location : String
  Hospital : String
  embryo_count : ℚ
  patient_count : ℚ
  CH_RATE : ℚ
  AF_RATE : ℚ
  IC_RATE : ℚ
deriving DecidableEq, Repr

/-- `data[(data['hospital_location'].isin(location_filter)) & (data['Hospital'].isin(hospital_filter))]`:
keep exactly the rows whose `hospital_location` is a selected location and
whose `Hospital` is a selected hospital, in the original row order.
(The subsequent `reset_index(drop=True)` only renumbers the index and is a
no-op on a position-indexed list.) -/
def filtered_data (data : List Row) (location_filter hospital_filter : List String) : List Row :=
  data.filter fun r =>
    decide (r.hospital_location ∈ location_filter) && decide (r.Hospital ∈ hospital_filter)

/-- Lexicographic strict order on character lists by code point, the order
Python's `sorted` uses on strings. -/
def charsLt : List Char → List Char → Bool
  | [], [] => false
  | [], _ :: _ => true
  | _ :: _, [] => false
  | a :: as, b :: bs => if a < b then true else if b < a then false else charsLt as bs

/-- Lexicographic strict order on strings by code point. -/
def strLt (a b : String) : Bool := charsLt a.data b.data

/-- Insert a string into a list before the first strictly larger element. -/
def insertStr (s : String) : List String → List String
  | [] => [s]
  | t :: ts => if strLt s t then s :: t :: ts else t :: insertStr s ts

/-- Insertion sort on strings, modelling Python's `sorted`. -/
def sortStrs : List String → List String
  | [] => []
  | s :: ss => insertStr s (sortStrs ss)

/-- `Series.unique()`: the distinct values of a list in order of first
occurrence (`seen` accumulates the values already emitted). -/
def uniqueAux (seen : List String) : List String → List String
  | [] => []
  | s :: ss => if seen.contains s then uniqueAux seen ss else s :: uniqueAux (s :: seen) ss

/-- `Series.unique()`: distinct values in order of first occurrence. -/
def uniques (l : List String) : List String := uniqueAux [] l

/-- `sorted(data['hospital_location'].unique())`: the distinct locations of the
table, sorted — the default (full) selection of the location multiselect. -/
def location_options (data : List Row) : List String :=
  sortStrs (uniques (data.map Row.hospital_location))

/-- `sorted(data['Hospital'].unique())`: the distinct hospitals of the table,
sorted — the default (full) selection of the hospital multiselect. -/
def hospital_options (data : List Row) : List String :=
  sortStrs (uniques (data.map Row.Hospital))

/-- pandas `Series.mean()`: the arithmetic mean, `NaN` (here `none`) on an
empty series. -/
def seriesMean (xs : List ℚ) : Option ℚ :=
  if xs.length = 0 then none else some (xs.sum / xs.length)

/-- `len(filtered_data['Hospital'].unique())` — the "Total Hospitals" metric. -/
def hospital_count (t : List Row) : ℕ :=
  (uniques (t.map Row.Hospital)).length

/-- `filtered_data['embryo_count'].sum()` — the "Total Embryos" metric. -/
def embryo_total (t : List Row) : ℚ :=
  (t.map Row.embryo_count).sum

/-- `filtered_data['patient_count'].sum()` — the "Total Patients" metric. -/
def patient_total (t : List Row) : ℚ :=
  (t.map Row.patient_count).sum

/-- `filtered_data['CH-RATE'].mean()` — the "Avg CH-RATE" metric (`none` = NaN). -/
def ch_rate_avg (t : List Row) : Option ℚ :=
  seriesMean (t.map Row.CH_RATE)

/-- `filtered_data['AF-RATE'].mean()` — the "Avg AF-RATE" metric (`none` = NaN). -/
def af_rate_avg (t : List Row) : Option ℚ :=
  seriesMean (t.map Row.AF_RATE)

/-- `filtered_data['IC-RATE'].mean()` — the "Avg IC-RATE" metric (`none` = NaN). -/
def ic_rate_avg (t : List Row) : Option ℚ :=
  seriesMean (t.map Row.IC_RATE)

/-- The six scalar metrics of the dashboard's metric block, bundled. -/
structure Metrics where
  hospital_count : ℕ
  embryo_total : ℚ
  patient_total : ℚ
  ch_rate_avg : Option ℚ
  af_rate_avg : Option ℚ
  ic_rate_avg : Option ℚ
deriving DecidableEq, Repr

/-- The metric block of the dashboard (`st.metric` calls, lines 46–60):
distinct-hospital count, embryo/patient sums, rate means. -/
def summarize (t : List Row) : Metrics :=
  { hospital_count := hospital_count t
    embryo_total := embryo_total t
    patient_total := patient_total t
    ch_rate_avg := ch_rate_avg t
    af_rate_avg := af_rate_avg t
    ic_rate_avg := ic_rate_avg t }

/-- Row 1 of the spec's 3-row scenario table: Hospital A / LocX /
embryo_count 10 / CH-RATE 50 (unconstrained columns set to 0/1). -/
def scnRow1 : Row :=
  { hospital_location := "LocX", Hospital := "A", embryo_count := 10
    patient_count := 1, CH_RATE := 50, AF_RATE := 0, IC_RATE := 0 }

/-- Row 2 of the scenario table: Hospital B / LocY / embryo_count 20 / CH-RATE 70. -/
def scnRow2 : Row :=
  { hospital_location := "LocY", Hospital := "B", embryo_count := 20
    patient_count := 1, CH_RATE := 70, AF_RATE := 0, IC_RATE := 0 }

/-- Row 3 of the scenario table: Hospital A / LocX / embryo_count 5 / CH-RATE 60. -/
def scnRow3 : Row :=
  { hospital_location := "LocX", Hospital := "A", embryo_count := 5
    patient_count := 1, CH_RATE := 60, AF_RATE := 0, IC_RATE := 0 }

/-- The spec's 3-row scenario table. -/
def scnTable : List Row := [scnRow1, scnRow2, scnRow3]

/-- numpy/pandas `.round` rounding of a rational to an integer: round half to
even, other values to the nearest integer. -/
def roundHalfEven (q : ℚ) : ℤ :=
  if q - ⌊q⌋ = 1 / 2 then (if ⌊q⌋ % 2 = 0 then ⌊q⌋ else ⌊q⌋ + 1) else round q

/-- `.round(2)`: round to 2 decimal places (half to even). -/
def round2 (q : ℚ) : ℚ := (roundHalfEven (q * 100) : ℚ) / 100

/-- One output row of the `location_stats` grouped table: the group key and
the five aggregates of
`.agg({'embryo_count': ['sum', 'mean'], 'CH-RATE': 'mean', 'AF-RATE': 'mean', 'IC-RATE': 'mean'})`. -/
structure LocStat where
  key : String
  embryo_sum : ℚ
  embryo_mean : Option ℚ
  CH_mean : Option ℚ
  AF_mean : Option ℚ
  IC_mean : Option ℚ
deriving DecidableEq, Repr

/-- `filtered_data.groupby('hospital_location').agg({...}).round(2)`:
one output row per distinct `hospital_location` (pandas emits group keys in
sorted order), carrying the sum and mean of `embryo_count` and the means of
the three rate columns, every aggregate rounded to 2 decimal places. -/
def location_stats (t : List Row) : List LocStat :=
  (sortStrs (uniques (t.map Row.hospital_location))).map fun k =>
    let g := t.filter fun r => r.hospital_location == k
    { key := k
      embryo_sum := round2 (g.map Row.embryo_count).sum
      embryo_mean := (seriesMean (g.map Row.embryo_count)).map round2
      CH_mean := (seriesMean (g.map Row.CH_RATE)).map round2
      AF_mean := (seriesMean (g.map Row.AF_RATE)).map round2
      IC_mean := (seriesMean (g.map Row.IC_RATE)).map round2 }

/-- Decimal digit characters of `n`, most significant first; the first
argument is structural fuel (`n` itself is always enough, since `n / 10 < n`
for `n ≥ 1`). -/
def natStrAux : ℕ → ℕ → List Char
  | 0, _ => []
  | _ + 1, 0 => []
  | fuel + 1, n + 1 => natStrAux fuel ((n + 1) / 10) ++ [Char.ofNat (48 + (n + 1) % 10)]

/-- Decimal string of a natural number (Python `str`). -/
def natStr (n : ℕ) : List Char :=
  if n = 0 then ['0'] else natStrAux n n

/-- Canonical display string of a numeric cell, as characters.  The source
keeps numbers as floats and renders them with Python `str`; the embedding
keeps them as exact rationals and renders them with one documented, injective
formatting policy (integers as plain decimals, non-integers as
`numerator/denominator`), the explicit per-column stringification policy the
spec's design notes call for. -/
def numStr (q : ℚ) : List Char :=
  (if q.num < 0 then ['-'] else []) ++ natStr q.num.natAbs ++
    (if q.den = 1 then [] else '/' :: natStr q.den)

/-- Display string of a numeric cell. -/
def cellStr (q : ℚ) : String := String.mk (numStr q)

/-- `row.astype(str)`: the string form of every cell of a row, in column
order — the strings the table search scans. -/
def rowStrings (r : Row) : List String :=
  [r.hospital_location, r.Hospital, cellStr r.embryo_count, cellStr r.patient_count,
   cellStr r.CH_RATE, cellStr r.AF_RATE, cellStr r.IC_RATE]

/-- The regular-expression metacharacters of Python's `re` module. -/
def isMeta (c : Char) : Bool :=
  c == '.' || c == '^' || c == '$' || c == '*' || c == '+' || c == '?' ||
  c == '\x7b' || c == '\x7d' || c == '[' || c == ']' || c == '\\' || c == '|' ||
  c == '(' || c == ')'

/-- One atom of the modelled regex fragment: a literal character or `.`. -/
inductive Atom where
  | lit (c : Char)
  | any
deriving DecidableEq, Repr

/-- Whether an atom matches one character under `re.IGNORECASE`
(`str.contains(·, case=False)`); `.` matches any character except a newline. -/
def atomMatch : Atom → Char → Bool
  | .lit c, d => c.toLower == d.toLower
  | .any, d => d != '\n'

/-- Whether an atom sequence matches a prefix of `s` (each atom consumes
exactly one character). -/
def matchAt : List Atom → List Char → Bool
  | [], _ => true
  | _ :: _, [] => false
  | a :: as, c :: cs => atomMatch a c && matchAt as cs

/-- `re.search`: whether the atom sequence matches at some position of `s`. -/
def reSearch (as : List Atom) : List Char → Bool
  | [] => matchAt as []
  | c :: cs => matchAt as (c :: cs) || reSearch as cs

/-- `re.compile` on the fragment of Python regex syntax the model covers:
literal characters, `.`, and `(`…`)` groups (`d` counts open groups).  An
unmatched `(` or `)` is a compile error, exactly as in `re`; the remaining
metacharacters are outside the modelled fragment and are conservatively
rejected (no claim evaluates the matcher on them). -/
def parseAtoms : List Char → ℕ → Except String (List Atom)
  | [], 0 => .ok []
  | [], _ + 1 => .error "missing ), unterminated subpattern"
  | c :: rest, d =>
    if c = '(' then parseAtoms rest (d + 1)
    else if c = ')' then
      match d with
      | 0 => .error "unbalanced parenthesis"
      | d' + 1 => parseAtoms rest d'
    else if c = '.' then (parseAtoms rest d).map fun as => Atom.any :: as
    else if isMeta c then .error "metacharacter outside the modelled fragment"
    else (parseAtoms rest d).map fun as => Atom.lit c :: as

/-- The table search (lines 71–76): an empty query leaves the table unchanged;
a non-empty query is compiled as a regular expression
(`str.contains(search, case=False)`, pandas default `regex=True`) and a row is
kept when the pattern matches somewhere in the string form of at least one of
its cells.  A pattern that fails to compile raises (`Except.error`). -/
def search (t : List Row) (query : String) : Except String (List Row) :=
  if query = "" then .ok t
  else
    match parseAtoms query.data 0 with
    | .error e => .error e
    | .ok as => .ok (t.filter fun r => (rowStrings r).any fun cell => reSearch as cell.data)

/-- A row none of whose cell strings contains a literal dot. -/
def dotRow : Row :=
  { hospital_location := "LocX", Hospital := "ab", embryo_count := 1
    patient_count := 1, CH_RATE := 2, AF_RATE := 3, IC_RATE := 4 }

/-- One-row table for the dot-query counterexample. -/
def dotTable : List Row := [dotRow]

/-- The four numeric columns of
`filtered_data[['embryo_count', 'CH-RATE', 'AF-RATE', 'IC-RATE']].corr()`,
by position. -/
def numColumn : Fin 4 → Row → ℚ
  | 0 => Row.embryo_count
  | 1 => Row.CH_RATE
  | 2 => Row.AF_RATE
  | 3 => Row.IC_RATE

/-- The values of the `i`-th numeric column of a table, as reals (float
arithmetic of the source embedded as exact real arithmetic). -/
def colReals (t : List Row) (i : Fin 4) : List ℝ :=
  t.map fun r => ((numColumn i r : ℚ) : ℝ)

/-- Arithmetic mean of a list of reals (`0/0 = 0` junk value on `[]`; only
used here under deviations, where the empty case gives a zero sum anyway). -/
noncomputable def listMean (xs : List ℝ) : ℝ := xs.sum / xs.length

/-- Deviations from the mean. -/
noncomputable def devs (xs : List ℝ) : List ℝ := xs.map fun x => x - listMean xs

/-- Sum of products of paired deviations — the numerator of Pearson's r, and
for `sxy xs xs` the (unnormalised) variance of a column: `sxy xs xs = 0` iff
the column has zero variance (or fewer than 2 values). -/
noncomputable def sxy (xs ys : List ℝ) : ℝ :=
  (List.zipWith (· * ·) (devs xs) (devs ys)).sum

/-- One entry of the Pearson correlation matrix:
`sxy / (sqrt sxx * sqrt syy)`, `NaN` (here `none`) when the denominator is
zero — i.e. when either column has zero variance, which includes every table
with fewer than 2 rows. -/
noncomputable def corrEntry (xs ys : List ℝ) : Option ℝ :=
  if Real.sqrt (sxy xs xs) * Real.sqrt (sxy ys ys) = 0 then none
  else some (sxy xs ys / (Real.sqrt (sxy xs xs) * Real.sqrt (sxy ys ys)))

/-- `corr_data = filtered_data[['embryo_count', 'CH-RATE', 'AF-RATE', 'IC-RATE']].corr()`:
the 4×4 Pearson correlation matrix of the numeric columns. -/
noncomputable def corr_data (t : List Row) (i j : Fin 4) : Option ℝ :=
  corrEntry (colReals t i) (colReals t j)

/-- Whether a CSV field must be quoted (`csv.QUOTE_MINIMAL`, the pandas
`to_csv` default): it contains the delimiter, the quote character, or a
line-break character. -/
def needsQuote (s : List Char) : Bool :=
  s.any fun c => c == ',' || c == '"' || c == '\n' || c == '\r'

/-- Double every quote character of a quoted field's content. -/
def escQuotes : List Char → List Char
  | [] => []
  | c :: cs => if c = '"' then '"' :: '"' :: escQuotes cs else c :: escQuotes cs

/-- Serialize one CSV field: quoted (with quote doubling) only when needed. -/
def escField (s : List Char) : List Char :=
  if needsQuote s then '"' :: (escQuotes s ++ ['"']) else s

/-- Join serialized fields with the comma delimiter. -/
def joinCommaFields : List String → List Char
  | [] => []
  | [f] => escField f.data
  | f :: fs => escField f.data ++ ',' :: joinCommaFields fs

/-- One `\n`-terminated CSV record. -/
def csvLine (fields : List String) : List Char :=
  joinCommaFields fields ++ ['\n']

/-- The header row of the export: the column names in the table's column
order (the source's `to_csv(index=False)` writes the column labels first). -/
def headerStrings : List String :=
  ["hospital_location", "Hospital", "embryo_count", "patient_count",
   "CH-RATE", "AF-RATE", "IC-RATE"]

/-- `csv = filtered_data.to_csv(index=False)` (line 178): header line first,
then one comma-separated, minimally-quoted, `\n`-terminated line per row, in
row order; cells are rendered with the same stringification the table view
uses.  The `.encode('utf-8')` byte layer is the identity on the modelled
string. -/
def to_csv (t : List Row) : String :=
  String.mk (((headerStrings :: t.map rowStrings).map csvLine).flatten)

/-- Modelled from the spec: the repository never parses CSV (only the
browser download consumes it), so the reparser required by the round-trip
property ("reparsing the output with the same column types reproduces the
original values") is modelled from the spec's words as a standard CSV reader.
State machine over the characters: `inQuotes` flag, the current field
(reversed), the current record (reversed) and the finished records
(reversed); `""` inside a quoted field is an escaped quote; a record ends at
an unquoted `\n`; the document must end exactly after a record. -/
def csvParseAux : Bool → List Char → List Char → List String → List (List String) →
    Option (List (List String))
  | false, [], [], [], recs => some recs.reverse
  | false, [], _ :: _, _, _ => none
  | false, [], [], _ :: _, _ => none
  | false, c :: cs, field, record, recs =>
    if c = '"' ∧ field = [] then csvParseAux true cs [] record recs
    else if c = ',' then csvParseAux false cs [] (String.mk field.reverse :: record) recs
    else if c = '\n' then
      csvParseAux false cs [] [] ((String.mk field.reverse :: record).reverse :: recs)
    else csvParseAux false cs (c :: field) record recs
  | true, [], _, _, _ => none
  | true, '"' :: '"' :: cs, field, record, recs => csvParseAux true cs ('"' :: field) record recs
  | true, '"' :: cs, field, record, recs => csvParseAux false cs field record recs
  | true, c :: cs, field, record, recs => csvParseAux true cs (c :: field) record recs

/-- Modelled from the spec: split a CSV document into records of raw string
fields. -/
def csvParse (s : String) : Option (List (List String)) :=
  csvParseAux false s.data [] [] []

/-- A decimal digit character. -/
def isDigitChar (c : Char) : Bool := 48 ≤ c.toNat && c.toNat ≤ 57

/-- Modelled from the spec: parse a non-empty all-digit string as a natural
number. -/
def parseNat (cs : List Char) : Option ℕ :=
  if cs.isEmpty then none
  else if cs.all isDigitChar then
    some (cs.foldl (fun acc c => acc * 10 + (c.toNat - 48)) 0)
  else none

/-- Split a numeric literal at its first `/`, when present. -/
def splitSlash : List Char → List Char × Option (List Char)
  | [] => ([], none)
  | c :: cs =>
    if c = '/' then ([], some cs)
    else
      let p := splitSlash cs
      (c :: p.1, p.2)

/-- Modelled from the spec: parse an unsigned numeric cell (plain decimal or
`numerator/denominator`), the inverse of `numStr`'s formatting policy. -/
def parsePos (cs : List Char) : Option ℚ :=
  match splitSlash cs with
  | (a, none) => (parseNat a).map fun n => (n : ℚ)
  | (a, some b) =>
    match parseNat a, parseNat b with
    | some n, some d => if d = 0 then none else some ((n : ℚ) / (d : ℚ))
    | _, _ => none

/-- Modelled from the spec: parse a signed numeric cell. -/
def parseRat (cs : List Char) : Option ℚ :=
  if cs.head? = some '-' then (parsePos cs.tail).map Neg.neg else parsePos cs

/-- Modelled from the spec: convert one parsed record back into a row "with
the same column types": the two string columns are taken verbatim, the five
numeric columns are parsed. -/
def fieldsToRow : List String → Option Row
  | [loc, hosp, e, p, ch, af, ic] =>
    match parseRat e.data, parseRat p.data, parseRat ch.data, parseRat af.data,
        parseRat ic.data with
    | some e', some p', some ch', some af', some ic' =>
      some ⟨loc, hosp, e', p', ch', af', ic'⟩
    | _, _, _, _, _ => none
  | _ => none

/-- Modelled from the spec: convert every parsed record into a row. -/
def rowsToTable : List (List String) → Option (List Row)
  | [] => some []
  | fs :: rest =>
    match fieldsToRow fs, rowsToTable rest with
    | some r, some t => some (r :: t)
    | _, _ => none

/-- Modelled from the spec: parse an exported CSV document back into a table:
split into records, check the header row, and convert the remaining records
with the table's column types. -/
def parseCsv (s : String) : Option (List Row) :=
  match csvParse s with
  | none => none
  | some [] => none
  | some (h :: rows) => if h = headerStrings then rowsToTable rows else none

-- ===================== THEOREMS =====================

lemma mem_insertStr (a s : String) (l : List String) :
    a ∈ insertStr s l ↔ a = s ∨ a ∈ l := by
  induction l with
  | nil => simp [insertStr]
  | cons t ts ih =>
    by_cases h : strLt s t = true <;> simp [insertStr, h, ih] <;> tauto

lemma mem_sortStrs (a : String) (l : List String) : a ∈ sortStrs l ↔ a ∈ l := by
  induction l with
  | nil => simp [sortStrs]
  | cons s ss ih => simp [sortStrs, mem_insertStr, ih]

lemma mem_uniqueAux (a : String) (seen l : List String) :
    a ∈ uniqueAux seen l ↔ a ∈ l ∧ a ∉ seen := by
  induction l generalizing seen with
  | nil => simp [uniqueAux]
  | cons s ss ih =>
    by_cases h : seen.contains s = true
    · have hs : s ∈ seen := by simpa using h
      simp only [uniqueAux, if_pos h, ih, List.mem_cons]
      constructor
      · tauto
      · rintro ⟨ha | ha, hna⟩
        · exact absurd (ha ▸ hs) hna
        · exact ⟨ha, hna⟩
    · have hs : s ∉ seen := by simpa using h
      simp only [uniqueAux, if_neg h, List.mem_cons, ih]
      constructor
      · rintro (rfl | ⟨ha, hna⟩)
        · exact ⟨Or.inl rfl, hs⟩
        · refine ⟨Or.inr ha, ?_⟩
          intro hc
          exact hna (by simp [hc])
      · rintro ⟨rfl | ha, hna⟩
        · exact Or.inl rfl
        · by_cases has : a = s
          · exact Or.inl has
          · exact Or.inr ⟨ha, by simp [has, hna]⟩

lemma mem_uniques (a : String) (l : List String) : a ∈ uniques l ↔ a ∈ l := by
  simp [uniques, mem_uniqueAux]

/-- C1: `filtered_data` keeps exactly the rows whose `hospital_location` is in
the selected locations and whose `Hospital` is in the selected hospitals
(soundness and completeness), as a sublist of the input (original row order);
an empty location selection or an empty hospital selection yields the empty
table — there is no implicit "all" fallback. -/
theorem filtered_data_sound_complete (data : List Row)
    (location_filter hospital_filter : List String) :
    (filtered_data data location_filter hospital_filter).Sublist data ∧
    (∀ r : Row, r ∈ filtered_data data location_filter hospital_filter ↔
      r ∈ data ∧ r.hospital_location ∈ location_filter ∧ r.Hospital ∈ hospital_filter) ∧
    filtered_data data [] hospital_filter = [] ∧
    filtered_data data location_filter [] = [] := by
  refine ⟨List.filter_sublist data, fun r => ?_, ?_, ?_⟩
  · simp [filtered_data, List.mem_filter, and_assoc]
  · simp [filtered_data]
  · simp [filtered_data]

/-- C1 witness: the general theorem instantiated at the scenario table with
locations `{LocX}` and hospitals `{A}`. -/
theorem filtered_data_sound_complete_witness :
    (filtered_data scnTable ["LocX"] ["A"]).Sublist scnTable ∧
    (∀ r : Row, r ∈ filtered_data scnTable ["LocX"] ["A"] ↔
      r ∈ scnTable ∧ r.hospital_location ∈ ["LocX"] ∧ r.Hospital ∈ ["A"]) ∧
    filtered_data scnTable [] ["A"] = [] ∧
    filtered_data scnTable ["LocX"] [] = [] :=
  filtered_data_sound_complete scnTable ["LocX"] ["A"]

/-- C3: on the empty table, `summarize` returns hospital count 0, embryo total
0, patient total 0, and all three rate averages are the NaN sentinel (`none`);
as a total function it raises nothing. -/
theorem summarize_empty :
    summarize [] =
      { hospital_count := 0, embryo_total := 0, patient_total := 0
        ch_rate_avg := none, af_rate_avg := none, ic_rate_avg := none } := by
  rfl

/-- C8: filtering with the full selections (all distinct locations and all
distinct hospitals of the table) returns the table itself, row order
preserved. -/
theorem filtered_data_full_selection (data : List Row) :
    filtered_data data (location_options data) (hospital_options data) = data := by
  apply List.filter_eq_self.mpr
  intro r hr
  simp only [location_options, hospital_options, Bool.and_eq_true, decide_eq_true_eq,
    mem_sortStrs, mem_uniques]
  exact ⟨List.mem_map_of_mem Row.hospital_location hr, List.mem_map_of_mem Row.Hospital hr⟩

/-- C6: on the spec's 3-row scenario table, filtering with locations `{LocX}`
and hospitals `{A}` returns exactly rows 1 and 3 (in order), and the metric
block on that result shows 1 hospital, 15 total embryos, and an average
CH-RATE of 55. -/
theorem scenario_filter_summarize :
    filtered_data scnTable ["LocX"] ["A"] = [scnRow1, scnRow3] ∧
    (summarize (filtered_data scnTable ["LocX"] ["A"])).hospital_count = 1 ∧
    (summarize (filtered_data scnTable ["LocX"] ["A"])).embryo_total = 15 ∧
    (summarize (filtered_data scnTable ["LocX"] ["A"])).ch_rate_avg = some 55 := by
  have hf : filtered_data scnTable ["LocX"] ["A"] = [scnRow1, scnRow3] := by decide
  refine ⟨hf, ?_, ?_, ?_⟩ <;> rw [summarize, hf]
  · decide
  · norm_num [embryo_total, scnRow1, scnRow3]
  · norm_num [ch_rate_avg, seriesMean, scnRow1, scnRow3]

/-- C7: grouping the scenario table by `hospital_location` yields one output
row per distinct key — LocX with embryo-count sum 15, LocY with sum 20 —
with all aggregate values rounded to 2 decimal places. -/
theorem scenario_location_stats :
    location_stats scnTable =
      [{ key := "LocX", embryo_sum := 15, embryo_mean := some (75 / 10)
         CH_mean := some 55, AF_mean := some 0, IC_mean := some 0 },
       { key := "LocY", embryo_sum := 20, embryo_mean := some 20
         CH_mean := some 70, AF_mean := some 0, IC_mean := some 0 }] := by
  have hkeys : sortStrs (uniques (scnTable.map Row.hospital_location)) = ["LocX", "LocY"] := by
    decide
  have hgx : scnTable.filter (fun r => r.hospital_location == "LocX") = [scnRow1, scnRow3] := by
    decide
  have hgy : scnTable.filter (fun r => r.hospital_location == "LocY") = [scnRow2] := by
    decide
  unfold location_stats
  rw [hkeys]
  simp only [List.map_cons, List.map_nil]
  rw [hgx, hgy]
  norm_num [seriesMean, round2, roundHalfEven, scnRow1, scnRow2, scnRow3]

/-- C9: searching with the empty query returns the table unchanged (the
source only applies the mask when the query is non-empty). -/
theorem search_empty_query (t : List Row) : search t "" = Except.ok t := rfl

/-- C10: the search hands the query to a regular-expression matcher
(`str.contains` with its default `regex=True`), so the non-empty query `"("`
is an invalid pattern and search raises (returns an error) instead of
returning a subset of the table. -/
theorem search_invalid_pattern (t : List Row) :
    ("(" : String) ≠ "" ∧
    search t "(" = Except.error "missing ), unterminated subpattern" :=
  ⟨by decide, rfl⟩

/-- C2 counterexample: on the one-row table whose cells are
`LocX, ab, 1, 1, 2, 3, 4`, the non-empty query `"."` returns the row even
though `"."` is not a case-insensitive substring of any cell's string form —
the search is not a literal substring match. -/
theorem search_dot_counterexample :
    search dotTable "." = Except.ok [dotRow] ∧
    ¬ ∃ cell ∈ rowStrings dotRow,
        ("." : String).data.map Char.toLower <:+: cell.data.map Char.toLower := by
  constructor
  · rfl
  · decide

lemma parseAtoms_no_meta (cs : List Char) (h : ∀ c ∈ cs, isMeta c = false) :
    parseAtoms cs 0 = .ok (cs.map Atom.lit) := by
  induction cs with
  | nil => rfl
  | cons c rest ih =>
    have hc := h c (List.mem_cons_self c rest)
    have h1 : c ≠ '(' := by rintro rfl; simp [isMeta] at hc
    have h2 : c ≠ ')' := by rintro rfl; simp [isMeta] at hc
    have h3 : c ≠ '.' := by rintro rfl; simp [isMeta] at hc
    simp [parseAtoms, h1, h2, h3, hc, Except.map,
      ih fun x hx => h x (List.mem_cons_of_mem c hx)]

lemma matchAt_lit_iff (q s : List Char) :
    matchAt (q.map Atom.lit) s = true ↔ q.map Char.toLower <+: s.map Char.toLower := by
  induction q generalizing s with
  | nil => simp [matchAt]
  | cons c q ih =>
    cases s with
    | nil => simp [matchAt]
    | cons d s => simp [matchAt, atomMatch, ih, List.cons_prefix_cons]

lemma reSearch_lit_iff (q s : List Char) :
    reSearch (q.map Atom.lit) s = true ↔ q.map Char.toLower <:+: s.map Char.toLower := by
  induction s with
  | nil => simp [reSearch, matchAt_lit_iff]
  | cons c cs ih =>
    simp only [reSearch, Bool.or_eq_true, matchAt_lit_iff, ih, List.map_cons]
    exact (List.infix_cons_iff).symm

/-- C2 (amended): for every table and every non-empty query containing no
regex metacharacter, the search returns exactly the rows for which the query
is a case-insensitive substring of at least one cell's string form. -/
theorem search_no_meta_literal (t : List Row) (q : String) (hq : q ≠ "")
    (hm : ∀ c ∈ q.data, isMeta c = false) :
    search t q = Except.ok (t.filter fun r =>
      (rowStrings r).any fun cell =>
        decide (q.data.map Char.toLower <:+: cell.data.map Char.toLower)) := by
  unfold search
  rw [if_neg hq, parseAtoms_no_meta q.data hm]
  have hcell : (fun cell : String => reSearch (q.data.map Atom.lit) cell.data)
      = fun cell : String =>
        decide (q.data.map Char.toLower <:+: cell.data.map Char.toLower) := by
    funext cell
    have h1 := reSearch_lit_iff q.data cell.data
    by_cases h : reSearch (q.data.map Atom.lit) cell.data = true
    · rw [h, eq_comm, decide_eq_true_eq]
      exact h1.mp h
    · rw [Bool.not_eq_true] at h
      rw [h, eq_comm, decide_eq_false_iff_not]
      rw [← h1]
      simp [h]
  simp only [hcell]

/-- C2 witness: the amended theorem applied to the one-row table and the
metacharacter-free query `"ab"`. -/
theorem search_no_meta_literal_witness :
    ("ab" : String) ≠ "" ∧ (∀ c ∈ ("ab" : String).data, isMeta c = false) ∧
    search dotTable "ab" = Except.ok (dotTable.filter fun r =>
      (rowStrings r).any fun cell =>
        decide (("ab" : String).data.map Char.toLower <:+: cell.data.map Char.toLower)) :=
  ⟨by decide, by decide, search_no_meta_literal dotTable "ab" (by decide) (by decide)⟩

lemma sxy_comm (xs ys : List ℝ) : sxy xs ys = sxy ys xs := by
  unfold sxy
  rw [List.zipWith_comm_of_comm]
  exact fun a b => mul_comm a b

lemma zipWith_mul_self (l : List ℝ) : List.zipWith (· * ·) l l = l.map fun a => a * a := by
  induction l with
  | nil => rfl
  | cons a l ih => simp [List.zipWith_cons_cons, ih]

lemma sxy_self_nonneg (xs : List ℝ) : 0 ≤ sxy xs xs := by
  unfold sxy
  rw [zipWith_mul_self]
  apply List.sum_nonneg
  intro x hx
  obtain ⟨a, _, rfl⟩ := List.mem_map.mp hx
  exact mul_self_nonneg a

lemma sxy_zero_of_short (xs : List ℝ) (h : xs.length < 2) : sxy xs xs = 0 := by
  match xs, h with
  | [], _ => simp [sxy, devs]
  | [a], _ => simp [sxy, devs, listMean]

/-- C5: the correlation matrix is symmetric; its diagonal entry is `1.0` for
every column of non-zero variance (`sxy xs xs ≠ 0`); and an entry involving a
zero-variance column — in particular every entry of a table with fewer than
2 rows — is the NaN sentinel (`none`). -/
theorem corr_data_symm_diag_nan (t : List Row) (i j : Fin 4) :
    corr_data t i j = corr_data t j i ∧
    (sxy (colReals t i) (colReals t i) ≠ 0 → corr_data t i i = some 1) ∧
    (sxy (colReals t i) (colReals t i) = 0 → corr_data t i j = none) ∧
    (sxy (colReals t j) (colReals t j) = 0 → corr_data t i j = none) ∧
    (t.length < 2 → corr_data t i j = none) := by
  refine ⟨?_, ?_, ?_, ?_, ?_⟩
  · unfold corr_data corrEntry
    rw [sxy_comm (colReals t i) (colReals t j), mul_comm]
  · intro h
    have hnn := sxy_self_nonneg (colReals t i)
    have hsq : Real.sqrt (sxy (colReals t i) (colReals t i)) *
        Real.sqrt (sxy (colReals t i) (colReals t i)) = sxy (colReals t i) (colReals t i) :=
      Real.mul_self_sqrt hnn
    unfold corr_data corrEntry
    rw [hsq, if_neg h, div_self h]
  · intro h
    unfold corr_data corrEntry
    rw [h, Real.sqrt_zero, zero_mul, if_pos rfl]
  · intro h
    unfold corr_data corrEntry
    rw [h, Real.sqrt_zero, mul_zero, if_pos rfl]
  · intro h
    have hlen : (colReals t i).length < 2 := by
      simpa [colReals] using h
    have h0 := sxy_zero_of_short (colReals t i) hlen
    unfold corr_data corrEntry
    rw [h0, Real.sqrt_zero, zero_mul, if_pos rfl]

/-- C5 witness: on the scenario table the embryo-count column has non-zero
variance, the (0,1)/(1,0) entries agree, and the (0,0) diagonal entry is 1. -/
theorem corr_data_symm_diag_nan_witness :
    sxy (colReals scnTable 0) (colReals scnTable 0) ≠ 0 ∧
    corr_data scnTable 0 1 = corr_data scnTable 1 0 ∧
    corr_data scnTable 0 0 = some 1 := by
  have h : sxy (colReals scnTable 0) (colReals scnTable 0) ≠ 0 := by
    norm_num [sxy, devs, listMean, colReals, numColumn, scnTable, scnRow1, scnRow2, scnRow3]
  exact ⟨h, (corr_data_symm_diag_nan scnTable 0 1).1,
    (corr_data_symm_diag_nan scnTable 0 0).2.1 h⟩

lemma charOfNat_digit_toNat (d : ℕ) (h : d < 10) : (Char.ofNat (48 + d)).toNat = 48 + d := by
  interval_cases d <;> decide

lemma natStrAux_digits (fuel n : ℕ) : ∀ c ∈ natStrAux fuel n, isDigitChar c = true := by
  induction fuel generalizing n with
  | zero => intro c hc; simp [natStrAux] at hc
  | succ fuel ih =>
    intro c hc
    match n with
    | 0 => simp [natStrAux] at hc
    | m + 1 =>
      rw [natStrAux] at hc
      rcases List.mem_append.mp hc with h1 | h2
      · exact ih _ c h1
      · have hd : (m + 1) % 10 < 10 := Nat.mod_lt _ (by norm_num)
        have := charOfNat_digit_toNat _ hd
        simp only [List.mem_singleton] at h2
        subst h2
        simp [isDigitChar, this]
        omega

lemma natStrAux_foldl (fuel : ℕ) : ∀ n acc, n ≤ fuel →
    (natStrAux fuel n).foldl (fun acc c => acc * 10 + (c.toNat - 48)) acc =
      acc * 10 ^ (natStrAux fuel n).length + n := by
  induction fuel with
  | zero =>
    intro n acc hn
    interval_cases n
    simp [natStrAux]
  | succ fuel ih =>
    intro n acc hn
    match n with
    | 0 => simp [natStrAux]
    | m + 1 =>
      rw [natStrAux]
      have hdiv : (m + 1) / 10 ≤ fuel := by
        have : (m + 1) / 10 < m + 1 := Nat.div_lt_self (Nat.succ_pos m) (by norm_num)
        omega
      have hd : (m + 1) % 10 < 10 := Nat.mod_lt _ (by norm_num)
      rw [List.foldl_append]
      simp only [List.foldl_cons, List.foldl_nil, List.length_append, List.length_singleton]
      rw [ih _ acc hdiv, charOfNat_digit_toNat _ hd]
      have : 48 + (m + 1) % 10 - 48 = (m + 1) % 10 := by omega
      rw [this, pow_succ]
      have hmod := Nat.div_add_mod (m + 1) 10
      ring_nf
      omega

lemma natStrAux_ne_nil (fuel n : ℕ) (hf : 1 ≤ fuel) (hn : 1 ≤ n) : natStrAux fuel n ≠ [] := by
  match fuel, n with
  | f + 1, m + 1 => simp [natStrAux]

lemma parseNat_natStr (n : ℕ) : parseNat (natStr n) = some n := by
  by_cases h : n = 0
  · subst h; rfl
  · rw [natStr, if_neg h]
    have hne := natStrAux_ne_nil n n (by omega) (by omega)
    rw [parseNat]
    rw [if_neg (by simpa [List.isEmpty_iff] using hne)]
    rw [if_pos (by rw [List.all_eq_true]; exact natStrAux_digits n n)]
    rw [natStrAux_foldl n n 0 (le_refl n)]
    simp

lemma natStr_digits (n : ℕ) : ∀ c ∈ natStr n, isDigitChar c = true := by
  by_cases h : n = 0
  · subst h; intro c hc; simp [natStr] at hc; subst hc; decide
  · rw [natStr, if_neg h]; exact natStrAux_digits n n

lemma digit_ne_slash (c : Char) (h : isDigitChar c = true) : c ≠ '/' := by
  intro hc
  rw [hc] at h
  exact absurd h (by decide)

lemma digit_ne_minus (c : Char) (h : isDigitChar c = true) : c ≠ '-' := by
  intro hc
  rw [hc] at h
  exact absurd h (by decide)

lemma head_not_minus (cs : List Char) (h : ∀ c ∈ cs, isDigitChar c = true) :
    cs.head? ≠ some '-' := by
  cases cs with
  | nil => simp
  | cons c cs =>
    simp only [List.head?_cons, ne_eq, Option.some.injEq]
    exact digit_ne_minus c (h c (List.mem_cons_self c cs))

lemma splitSlash_no_slash (cs : List Char) (h : ∀ c ∈ cs, c ≠ '/') :
    splitSlash cs = (cs, none) := by
  induction cs with
  | nil => rfl
  | cons c cs ih =>
    rw [splitSlash, if_neg (h c (List.mem_cons_self c cs))]
    simp [ih fun x hx => h x (List.mem_cons_of_mem c hx)]

lemma splitSlash_append (as bs : List Char) (h : ∀ c ∈ as, c ≠ '/') :
    splitSlash (as ++ '/' :: bs) = (as, some bs) := by
  induction as with
  | nil => simp [splitSlash]
  | cons a as ih =>
    simp only [List.cons_append]
    rw [splitSlash, if_neg (h a (List.mem_cons_self a as))]
    simp [ih fun x hx => h x (List.mem_cons_of_mem a hx)]

lemma num_cast_natAbs_nonneg (q : ℚ) (h : ¬ q.num < 0) : ((q.num.natAbs : ℚ)) = (q.num : ℚ) := by
  rw [Int.cast_natAbs]
  exact_mod_cast abs_of_nonneg (le_of_not_lt h)

lemma num_cast_natAbs_neg (q : ℚ) (h : q.num < 0) : ((q.num.natAbs : ℚ)) = -(q.num : ℚ) := by
  rw [Int.cast_natAbs]
  exact_mod_cast abs_of_neg h

lemma natStr_ne_nil (n : ℕ) : natStr n ≠ [] := by
  by_cases h : n = 0
  · subst h; simp [natStr]
  · rw [natStr, if_neg h]
    exact natStrAux_ne_nil n n (by omega) (by omega)

lemma head_append_not_minus (as bs : List Char) (h : ∀ c ∈ as, isDigitChar c = true)
    (hne : as ≠ []) : (as ++ bs).head? ≠ some '-' := by
  cases as with
  | nil => exact absurd rfl hne
  | cons c cs =>
    simp only [List.cons_append, List.head?_cons, ne_eq, Option.some.injEq]
    exact digit_ne_minus c (h c (List.mem_cons_self c cs))

lemma parsePos_natStr (n : ℕ) : parsePos (natStr n) = some ((n : ℚ)) := by
  have hs := splitSlash_no_slash (natStr n)
    fun c hc => digit_ne_slash c (natStr_digits n c hc)
  unfold parsePos
  rw [hs]
  simp [parseNat_natStr]

lemma parsePos_frac (a b : ℕ) (hb : b ≠ 0) :
    parsePos (natStr a ++ '/' :: natStr b) = some ((a : ℚ) / (b : ℚ)) := by
  have hs := splitSlash_append (natStr a) (natStr b)
    fun c hc => digit_ne_slash c (natStr_digits a c hc)
  unfold parsePos
  rw [hs]
  simp [parseNat_natStr, hb]

lemma parseRat_cons_minus (cs : List Char) :
    parseRat ('-' :: cs) = (parsePos cs).map Neg.neg := by
  unfold parseRat
  simp

lemma parseRat_of_head_ne (cs : List Char) (h : cs.head? ≠ some '-') :
    parseRat cs = parsePos cs := by
  unfold parseRat
  rw [if_neg h]

lemma num_div_den_cast (q : ℚ) : (q.num : ℚ) / ((q.den : ℕ) : ℚ) = q := Rat.num_div_den q

lemma rat_eq_num_of_den_one (q : ℚ) (hd1 : q.den = 1) : (q.num : ℚ) = q := by
  conv_rhs => rw [← num_div_den_cast q]
  rw [hd1]
  simp

lemma parseRat_numStr (q : ℚ) : parseRat (numStr q) = some q := by
  have hden0 : q.den ≠ 0 := q.den_pos.ne'
  by_cases hneg : q.num < 0 <;> by_cases hd1 : q.den = 1
  · -- negative integer
    simp only [numStr, if_pos hneg, if_pos hd1, List.append_nil, List.singleton_append]
    rw [parseRat_cons_minus, parsePos_natStr, Option.map_some']
    congr 1
    rw [num_cast_natAbs_neg q hneg, neg_neg]
    exact rat_eq_num_of_den_one q hd1
  · -- negative fraction
    simp only [numStr, if_pos hneg, if_neg hd1, List.singleton_append, List.cons_append,
      List.nil_append]
    rw [parseRat_cons_minus, parsePos_frac _ _ hden0, Option.map_some']
    congr 1
    rw [num_cast_natAbs_neg q hneg, neg_div, neg_neg, num_div_den_cast]
  · -- non-negative integer
    simp only [numStr, if_neg hneg, if_pos hd1, List.nil_append, List.append_nil]
    rw [parseRat_of_head_ne _ (head_not_minus _ (natStr_digits _)), parsePos_natStr]
    congr 1
    rw [num_cast_natAbs_nonneg q hneg]
    exact rat_eq_num_of_den_one q hd1
  · -- non-negative fraction
    simp only [numStr, if_neg hneg, if_neg hd1, List.nil_append]
    rw [parseRat_of_head_ne _ (head_append_not_minus _ _ (natStr_digits _) (natStr_ne_nil _)),
      parsePos_frac _ _ hden0]
    congr 1
    rw [num_cast_natAbs_nonneg q hneg, num_div_den_cast]

lemma fieldsToRow_rowStrings (r : Row) : fieldsToRow (rowStrings r) = some r := by
  simp [rowStrings, fieldsToRow, cellStr, parseRat_numStr]


lemma stringMk_data (s : String) : String.mk s.data = s := rfl

lemma stepPlain (c : Char) (cs field : List Char) (record : List String)
    (recs : List (List String)) (h1 : c ≠ '"') (h2 : c ≠ ',') (h3 : c ≠ '\n') :
    csvParseAux false (c :: cs) field record recs
      = csvParseAux false cs (c :: field) record recs := by
  rw [csvParseAux.eq_4, if_neg fun hx => h1 hx.1, if_neg h2, if_neg h3]

lemma stepComma (cs field : List Char) (record : List String) (recs : List (List String)) :
    csvParseAux false (',' :: cs) field record recs
      = csvParseAux false cs [] (String.mk field.reverse :: record) recs := by
  rw [csvParseAux.eq_4, if_neg fun hx => absurd hx.1 (by decide), if_pos rfl]

lemma stepNewline (cs field : List Char) (record : List String) (recs : List (List String)) :
    csvParseAux false ('\n' :: cs) field record recs
      = csvParseAux false cs [] [] ((String.mk field.reverse :: record).reverse :: recs) := by
  rw [csvParseAux.eq_4, if_neg fun hx => absurd hx.1 (by decide), if_neg (by decide), if_pos rfl]

lemma stepOpenQuote (cs : List Char) (record : List String) (recs : List (List String)) :
    csvParseAux false ('"' :: cs) [] record recs = csvParseAux true cs [] record recs := by
  rw [csvParseAux.eq_4, if_pos ⟨rfl, rfl⟩]

lemma stepCloseQuote (cs field : List Char) (record : List String) (recs : List (List String))
    (h : cs.head? ≠ some '"') :
    csvParseAux true ('"' :: cs) field record recs = csvParseAux false cs field record recs := by
  apply csvParseAux.eq_7
  intro cs1 hcs
  rw [hcs] at h
  exact h rfl

lemma stepQuotedChar (c : Char) (cs field : List Char) (record : List String)
    (recs : List (List String)) (h : c ≠ '"') :
    csvParseAux true (c :: cs) field record recs
      = csvParseAux true cs (c :: field) record recs := by
  apply csvParseAux.eq_8
  · intro _ hc _
    exact h hc
  · exact h

lemma parse_plain (cs : List Char) (h : ∀ c ∈ cs, c ≠ '"' ∧ c ≠ ',' ∧ c ≠ '\n') :
    ∀ rest field record recs,
    csvParseAux false (cs ++ rest) field record recs
      = csvParseAux false rest (cs.reverse ++ field) record recs := by
  induction cs with
  | nil => intro rest field record recs; simp
  | cons c cs ih =>
    intro rest field record recs
    obtain ⟨h1, h2, h3⟩ := h c (List.mem_cons_self c cs)
    rw [List.cons_append, stepPlain c _ field record recs h1 h2 h3,
      ih (fun x hx => h x (List.mem_cons_of_mem c hx)) rest (c :: field) record recs]
    simp

lemma parse_quoted_content (cs : List Char) :
    ∀ rest field record recs,
    csvParseAux true (escQuotes cs ++ rest) field record recs
      = csvParseAux true rest (cs.reverse ++ field) record recs := by
  induction cs with
  | nil => intro rest field record recs; simp [escQuotes]
  | cons c cs ih =>
    intro rest field record recs
    by_cases hc : c = '"'
    · subst hc
      simp only [escQuotes, if_pos, List.cons_append]
      rw [csvParseAux.eq_6, ih rest ('"' :: field) record recs]
      simp
    · simp only [escQuotes, if_neg hc, List.cons_append]
      rw [stepQuotedChar c _ field record recs hc, ih rest (c :: field) record recs]
      simp

lemma parse_field (f : String) (rest : List Char) (hrest : rest.head? ≠ some '"')
    (record : List String) (recs : List (List String)) :
    csvParseAux false (escField f.data ++ rest) [] record recs
      = csvParseAux false rest f.data.reverse record recs := by
  by_cases hq : needsQuote f.data = true
  · rw [escField, if_pos hq, List.cons_append, stepOpenQuote, List.append_assoc,
      List.singleton_append, parse_quoted_content f.data ('"' :: rest) [] record recs,
      stepCloseQuote rest _ record recs hrest]
    simp
  · rw [escField, if_neg hq]
    have hq' : needsQuote f.data = false := by simpa using hq
    have hchars : ∀ c ∈ f.data, c ≠ '"' ∧ c ≠ ',' ∧ c ≠ '\n' := by
      intro c hc
      rw [needsQuote, List.any_eq_false] at hq'
      have := hq' c hc
      simp only [Bool.or_eq_true, beq_iff_eq, not_or] at this
      exact ⟨this.1.1.2, this.1.1.1, this.1.2⟩
    rw [parse_plain f.data hchars rest [] record recs]
    simp

lemma parse_record_line (fields : List String) (hne : fields ≠ []) :
    ∀ rest racc recs,
    csvParseAux false (joinCommaFields fields ++ '\n' :: rest) [] racc recs
      = csvParseAux false rest [] [] ((racc.reverse ++ fields) :: recs) := by
  induction fields with
  | nil => exact absurd rfl hne
  | cons f fs ih =>
    intro rest racc recs
    cases fs with
    | nil =>
      simp only [joinCommaFields]
      rw [parse_field f ('\n' :: rest) (by simp) racc recs, stepNewline]
      simp [stringMk_data]
    | cons g gs =>
      simp only [joinCommaFields, List.append_assoc, List.cons_append]
      rw [parse_field f (',' :: (joinCommaFields (g :: gs) ++ '\n' :: rest)) (by simp) racc recs,
        stepComma]
      rw [List.reverse_reverse, stringMk_data]
      rw [ih (by simp) rest (f :: racc) recs]
      simp

lemma parse_lines (recordsList : List (List String))
    (hne : ∀ fields ∈ recordsList, fields ≠ []) :
    ∀ recs, csvParseAux false ((recordsList.map csvLine).flatten) [] [] recs
      = some (recs.reverse ++ recordsList) := by
  induction recordsList with
  | nil => intro recs; simp [csvParseAux.eq_1]
  | cons fields more ih =>
    intro recs
    simp only [List.map_cons, List.flatten_cons, csvLine, List.append_assoc,
      List.singleton_append]
    rw [parse_record_line fields (hne fields (List.mem_cons_self fields more)) _ [] recs]
    rw [ih (fun x hx => hne x (List.mem_cons_of_mem fields hx)) ((([] : List String).reverse ++ fields) :: recs)]
    simp

lemma rowsToTable_map (t : List Row) : rowsToTable (t.map rowStrings) = some t := by
  induction t with
  | nil => rfl
  | cons r t ih =>
    simp only [List.map_cons, rowsToTable, fieldsToRow_rowStrings r, ih]

/-- C4: parsing the CSV export of any table back with the same column types
yields the table itself (exact round-trip under the embedding's injective
numeric formatting, hence equality "up to numeric formatting precision"), and
the export starts with the header record in the table's column order. -/
theorem to_csv_roundtrip (t : List Row) :
    parseCsv (to_csv t) = some t ∧ csvLine headerStrings <+: (to_csv t).data := by
  constructor
  · have hne : ∀ fields ∈ headerStrings :: t.map rowStrings, fields ≠ [] := by
      intro fields hf
      rcases List.mem_cons.mp hf with rfl | hf
      · simp [headerStrings]
      · obtain ⟨r, _, rfl⟩ := List.mem_map.mp hf
        simp [rowStrings]
    unfold parseCsv csvParse to_csv
    rw [show (String.mk (((headerStrings :: t.map rowStrings).map csvLine).flatten)).data
        = ((headerStrings :: t.map rowStrings).map csvLine).flatten from rfl]
    rw [parse_lines (headerStrings :: t.map rowStrings) hne []]
    simp only [List.reverse_nil, List.nil_append, if_pos rfl]
    exact rowsToTable_map t
  · unfold to_csv
    rw [show (String.mk (((headerStrings :: t.map rowStrings).map csvLine).flatten)).data
        = ((headerStrings :: t.map rowStrings).map csvLine).flatten from rfl]
    simp only [List.map_cons, List.flatten_cons]
    exact List.prefix_append _ _
